import Mathlib

/-!
# Verification of the `ahd` command registry and dispatch engine

Shallow embedding of `src/ahd/cli.py` (the whole program lives in `main`
plus the helper `_preprocess_paths`).  Python strings are Lean `String`s;
the handful of string operations the source uses (`str.split(",")`,
`str.strip()`, `str.replace`, f-string concatenation, slicing `[1:-1]`,
`startswith`) are modelled character-by-character below, following
CPython semantics.  The `ConfigParser` store is modelled as an
insertion-ordered association list of sections, each section holding the
two keys `command` and `paths` that the program ever writes.  (The
always-present empty `DEFAULT` pseudo-section of `ConfigParser` is not
modelled; theorems about lookups therefore concern ordinary section
names.)  Side effects of a run — file writes, `subprocess.Popen`
launches, `print`s, `webbrowser.open_new`, `os.chdir` — are collected in
an event trace; an uncaught Python exception (`KeyError`,
`PermissionError`, `FileNotFoundError`) is modelled by an error value
that aborts the run, carrying the trace of the effects already
performed.
-/

namespace Ahd

/-- The whitespace characters stripped by Python's `str.strip()`
(restricted to the ASCII range, which is all the source manipulates). -/
def isPySpace (c : Char) : Bool :=
  c == ' ' || c == '\t' || c == '\n' || c == '\r' || c == '\x0b' || c == '\x0c'

/-- Python `str.strip()` on the underlying character list. -/
def stripList (l : List Char) : List Char :=
  ((l.dropWhile isPySpace).reverse.dropWhile isPySpace).reverse

/-- Python `s.strip()`. -/
def pyStrip (s : String) : String := ⟨stripList s.data⟩

/-- Python `str.split(sep)` for a one-character separator, on character lists.
Python's `split` with an explicit separator does not collapse empty
pieces and returns `[""]` on the empty string. -/
def splitChar (sep : Char) : List Char → List (List Char)
  | [] => [[]]
  | c :: rest =>
    let r := splitChar sep rest
    if c == sep then [] :: r
    else
      match r with
      | [] => [[c]]
      | h :: t => (c :: h) :: t

/-- Python `s.split(sep)` for a one-character separator. -/
def pySplitOn (sep : Char) (s : String) : List String :=
  (splitChar sep s.data).map (fun l => ⟨l⟩)

/-- Python `s.replace(old, new)` where `old` and `new` are single
characters (the source only replaces `"\\"` by `"/"` and `"/"` by
`os.sep`). -/
def replaceChar (a b : Char) (s : String) : String :=
  ⟨s.data.map (fun c => if c == a then b else c)⟩

/-- Python `s.replace(old, "")` for a one-character `old` (the source's
`.replace("\'", "")`). -/
def removeChar (a : Char) (s : String) : String :=
  ⟨s.data.filter (fun c => !(c == a))⟩

/-- Python slicing `s[1:-1]` (used in `paths[1:-1:]`): drop the first
and the last character, the empty string when `len(s) ≤ 1`. -/
def pySlice1m1 (s : String) : String := ⟨(s.data.drop 1).dropLast⟩

/-- Python `s.startswith("[")`. -/
def startsWithLbrack (s : String) : Bool :=
  match s.data with
  | '[' :: _ => true
  | _ => false

/-- CPython `repr` of a `str` (printable-ASCII case): single quotes
unless the string contains a single quote and no double quote; the
backslash and the chosen quote character are escaped. -/
def pyReprBody (quote : Char) (l : List Char) : List Char :=
  l.flatMap (fun c =>
    if c == '\\' then ['\\', '\\']
    else if c == quote then ['\\', c]
    else [c])

/-- CPython `repr(s)` for a printable-ASCII `str`. -/
def pyRepr (s : String) : String :=
  if s.data.contains '\'' && !(s.data.contains '"') then
    ⟨'"' :: (pyReprBody '"' s.data ++ ['"'])⟩
  else
    ⟨'\'' :: (pyReprBody '\'' s.data ++ ['\''])⟩

/-- The `", ".join`, as used by CPython's `str(list)`. -/
def commaSpaceJoin : List String → String
  | [] => ""
  | [x] => x
  | x :: y :: xs => x ++ ", " ++ commaSpaceJoin (y :: xs)

/-- CPython `str` of a list of strings: `[repr(e1), repr(e2), ...]`
joined with `", "` inside square brackets.  This is the serialization
`ConfigParser.read_dict` applies (via `str(value)`) when `main` stores
the preprocessed path list into the config object. -/
def pyStrList (xs : List String) : String :=
  "[" ++ commaSpaceJoin (xs.map pyRepr) ++ "]"

/-- The helper `_preprocess_paths` from `src/ahd/cli.py`: split the raw input on
`","`, and in each piece replace `"\\"` by `"/"` and strip surrounding
whitespace. -/
def _preprocess_paths (paths : String) : List String :=
  (pySplitOn ',' paths).map (fun p => pyStrip (replaceChar '\\' '/' p))

/-- A stored section of the config file: the two keys `main` ever
writes (`config[name] = {"command": ..., "paths": ...}`). -/
structure Entry where
  command : String
  paths : String
deriving DecidableEq, Repr

/-- The `ConfigParser` store: insertion-ordered sections. -/
abbrev Config := List (String × Entry)

/-- Lookup `config[name]`: `none` models the `KeyError` raised on
a missing section. -/
def lookupSection (cfg : Config) (name : String) : Option Entry :=
  match cfg with
  | [] => none
  | (n, e) :: rest => if n == name then some e else lookupSection rest name

/-- Assignment `config[name] = {...}`: overwrite the section in place if present,
append it otherwise (`ConfigParser.__setitem__` semantics). -/
def setSection (cfg : Config) (name : String) (e : Entry) : Config :=
  match cfg with
  | [] => [(name, e)]
  | (n, e') :: rest =>
    if n == name then (n, e) :: rest else (n, e') :: setSection rest name e

/-- Escaping of `BasicInterpolation.before_write`: `ConfigParser.write` doubles `%`
in values. -/
def escapePercent (s : String) : String :=
  ⟨s.data.flatMap (fun c => if c == '%' then ['%', '%'] else [c])⟩

/-- The lines `ConfigParser.write` emits for one section (" = "
delimiter, key order as inserted by `main`, blank line after the
section). -/
def sectionLines (name : String) (e : Entry) : List String :=
  ["[" ++ name ++ "]",
   "command = " ++ escapePercent e.command,
   "paths = " ++ escapePercent e.paths,
   ""]

/-- The lines of the file produced by `config.write(config_file)`. -/
def configWriteLines (cfg : Config) : List String :=
  cfg.flatMap (fun p => sectionLines p.1 p.2)

/-- The full text of the file produced by `config.write(config_file)`
(each line newline-terminated). -/
def configWriteString (cfg : Config) : String :=
  (configWriteLines cfg).foldr (fun l acc => l ++ "\n" ++ acc) ""

/-- Behaviour of `ConfigParser.read(filenames)` when `filenames` is not a
`str`/`bytes`/`os.PathLike`: it is treated as an iterable of filenames;
each name that opens is parsed and merged into the parser, each name
whose `open` raises `OSError` is silently skipped.  The filesystem is
abstracted as a partial map from filename to already-parsed store
content (the INI text parser itself is not modelled; the theorems only
exercise filenames that do not resolve). -/
def config_read_filenames (cfg : Config) (filenames : List String)
    (fs : String → Option Config) : Config :=
  filenames.foldl
    (fun c fn =>
      match fs fn with
      | none => c
      | some parsed => parsed.foldl (fun c2 p => setSection c2 p.1 p.2) c)
    cfg

/-! ## Events and run results -/

/-- One observable side effect of a run of `main`.  `waitEv` models the
`Popen.wait`/`Popen.communicate` calls of the subprocess API; the
source never performs one, which is what "fire-and-forget" dispatch
means, so no branch of the embedding emits it. -/
inductive Ev where
  | popen (cmd : String)
  | waitEv (cmd : String)
  | fwrite (path : String) (content : String)
  | printEv (s : String)
  | browse (url : String)
  | chdir (path : String)
deriving DecidableEq, Repr

/-- Does the event write the file at `path`? -/
def Ev.writesTo (path : String) : Ev → Bool
  | .fwrite p _ => p == path
  | _ => false

/-- Is the event a subprocess launch? -/
def Ev.isPopen : Ev → Bool
  | .popen _ => true
  | _ => false

/-- Is the event a wait on a subprocess? -/
def Ev.isWait : Ev → Bool
  | .waitEv _ => true
  | _ => false

/-- Is the event a file write? -/
def Ev.isFwrite : Ev → Bool
  | .fwrite _ _ => true
  | _ => false

/-- The launched command line of a `popen` event. -/
def popenCmds (tr : List Ev) : List String :=
  tr.filterMap (fun ev => match ev with | .popen c => some c | _ => none)

/-- An uncaught Python exception aborting `main`. -/
inductive PyErr where
  | keyError (key : String)
  | oserror (path : String)
deriving DecidableEq, Repr

/-- Outcome of one run of `main`: the event trace (up to the point an
exception aborted it, if one did), the uncaught exception if any, and
the in-memory config object at that point. -/
structure RunResult where
  trace : List Ev
  err : Option PyErr
  cfg : Config
deriving DecidableEq, Repr

/-! ## The embedded program -/

/-- The docopt result delivered to `main`: the intent flags and the raw
positional strings (`none` = the argument was not supplied). -/
structure Args where
  docs : Bool
  register : Bool
  config : Bool
  doExport : Bool
  doImport : Option String
  name : Option String
  command : Option String
  paths : Option String

/-- The host environment a run executes in: `os.name`, `os.sep`,
whether `sys.argv` had a single element, the default store file
(existence and parsed content), whether opening the bash-completion
file for writing succeeds, the external `generate_bash_autocomplete`
text generator, the abstract filesystem used by
`ConfigParser.read`-by-filename, and the lines of files opened for
reading (`none` = opening raises). -/
structure Env where
  osName : String
  sep : Char
  argvLen1 : Bool
  storeExists : Bool
  storeContent : Config
  configFilePath : String
  completionWriteOk : Bool
  gen : List (String × List String) → String
  fs : String → Option Config
  importLines : String → Option (List String)

/-- The module variable `CURRENT_PATH = os.curdir` from `src/ahd/cli.py` (`os.curdir` is
the literal `"."` on every platform). -/
def CURRENT_PATH : String := "."

/-- The module-level `commands` list: the built-in subcommands fed to
autocomplete generation. -/
def initialCommands : List (String × List String) :=
  [("docs", ["-a", "--api", "-o", "--offline"]), ("register", [])]

/-- The usage text printed when `sys.argv` has one element. -/
def usage : String :=
  "Add-hoc dispatcher\n    Create ad-hoc commands to be dispatched within their own namespace.\n\n    Usage: \n        ahd [-h] [-v] [-d]\n        ahd docs [-a] [-o]\n        ahd config [-e] [-i CONFIG_FILE_PATH]\n        ahd register <name> [<command>] [<paths>]\n        ahd <name> [<command>] [<paths>]\n"

/-- The value `main` stores under `arguments["<paths>"]`: the string
`""` when the argument is missing or empty (falsy), the Python list
`_preprocess_paths(...)` otherwise. -/
inductive PathsVal where
  | str (s : String)
  | list (l : List String)
deriving DecidableEq, Repr

/-- The preprocessing `if not arguments["<paths>"]: ... else: _preprocess_paths(...)`. -/
def preprocessArg (p : Option String) : PathsVal :=
  match p with
  | none => .str ""
  | some s => if s == "" then .str "" else .list (_preprocess_paths s)

/-- The `str(value)` conversion `ConfigParser.read_dict` applies to the
stored `paths` value. -/
def pyStrOfPathsVal : PathsVal → String
  | .str s => s
  | .list l => pyStrList l

/-- The composed instruction of the multi-path dispatch loop:
`f"cd {current_path.strip()} && {command} ".replace("\'", "")`. -/
def compose (path cmd : String) : String :=
  removeChar '\'' ("cd " ++ pyStrip path ++ " && " ++ cmd ++ " ")

/-- The `Running: ...` message printed before each multi-path launch. -/
def runningMsg (path cmd : String) : String :=
  removeChar '\'' ("Running: cd " ++ pyStrip path ++ " && " ++ cmd ++ " ")

/-- The composed instruction of the single-path branch:
`f"cd {config[name]['paths']} && {config[name]['command']} ".replace("\'", "")`
(no per-path `strip` here). -/
def composeSingle (paths cmd : String) : String :=
  removeChar '\'' ("cd " ++ paths ++ " && " ++ cmd ++ " ")

/-- The dispatch of one registry entry (the invoke branch of `main`):
if the stored `paths` starts with `[`, replace `/` by `os.sep` on
Windows-style hosts, drop the surrounding brackets, split on `,`, and
launch one subprocess per piece (printing a `Running:` line first);
otherwise launch a single subprocess on the raw stored `paths`. -/
def dispatchEntry (osName : String) (sep : Char) (e : Entry) : List Ev :=
  if startsWithLbrack e.paths then
    let paths1 := if osName == "nt" then replaceChar '/' sep e.paths else e.paths
    let ps := pySplitOn ',' (pySlice1m1 paths1)
    ps.flatMap (fun p =>
      [Ev.printEv (runningMsg p e.command), Ev.popen (compose p e.command)])
  else
    [Ev.popen (composeSingle e.paths e.command)]

/-- The config object after the startup load: read the default store
if it exists, start empty otherwise. -/
def loadedConfig (env : Env) : Config :=
  if env.storeExists then env.storeContent else []

/-- The events of the startup load: when the store file does not exist
it is created empty. -/
def loadEvents (env : Env) : List Ev :=
  if env.storeExists then []
  else [Ev.fwrite env.configFilePath (configWriteString [])]

/-- Resolution of the `.` reuse shorthand:
`if "." == arguments["<command>"]: arguments["<command>"] = config[name]["command"]`;
a missing section raises `KeyError(name)`. -/
def resolveCommand (cfg : Config) (name : String) (cmdArg : String) :
    Except PyErr String :=
  if cmdArg == "." then
    match lookupSection cfg name with
    | none => .error (.keyError name)
    | some e => .ok e.command
  else .ok cmdArg

/-- The register branch: store the entry, regenerate and write the
bash-completion script on non-`nt` hosts (an uncaught `PermissionError`
if the open fails), then save the store.  Returns the new config, the
emitted events, and the uncaught exception if one aborted the branch. -/
def registerStep (env : Env) (cfg : Config) (name cmdVal : String)
    (pathsVal : PathsVal) : Config × List Ev × Option PyErr :=
  if env.osName == "nt" then
    (setSection cfg name ⟨cmdVal, pyStrOfPathsVal pathsVal⟩,
     [Ev.fwrite env.configFilePath
        (configWriteString (setSection cfg name ⟨cmdVal, pyStrOfPathsVal pathsVal⟩))],
     none)
  else
    if env.completionWriteOk then
      (setSection cfg name ⟨cmdVal, pyStrOfPathsVal pathsVal⟩,
       [Ev.fwrite "/etc/bash_completion.d/ahd.sh"
          (env.gen (initialCommands
            ++ (setSection cfg name ⟨cmdVal, pyStrOfPathsVal pathsVal⟩).map
                (fun p => (p.1, [])))),
        Ev.printEv
          (env.gen (initialCommands
            ++ (setSection cfg name ⟨cmdVal, pyStrOfPathsVal pathsVal⟩).map
                (fun p => (p.1, [])))),
        Ev.fwrite env.configFilePath
          (configWriteString (setSection cfg name ⟨cmdVal, pyStrOfPathsVal pathsVal⟩))],
       none)
    else
      (setSection cfg name ⟨cmdVal, pyStrOfPathsVal pathsVal⟩, [],
       some (.oserror "/etc/bash_completion.d/ahd.sh"))

/-- The invoke branch: nothing when `<name>` is falsy; `KeyError` when
it names no section; the dispatch of the entry otherwise. -/
def invokeStep (env : Env) (cfg : Config) (nameArg : Option String) :
    List Ev × Option PyErr :=
  match nameArg with
  | none => ([], none)
  | some n =>
    if n == "" then ([], none)
    else
      match lookupSection cfg n with
      | none => ([], some (.keyError n))
      | some e => (dispatchEntry env.osName env.sep e, none)

/-- The destination of `config --export`:
`f"{os.curdir}{os.sep}.ahdconfig"`. -/
def exportPath (env : Env) : String :=
  "." ++ String.singleton env.sep ++ ".ahdconfig"

/-- The events of the `--export` half of the `config` block. -/
def exportEvents (env : Env) (cfg : Config) (doExport : Bool) : List Ev :=
  if doExport then
    [Ev.printEv (exportPath env),
     Ev.fwrite (exportPath env) (configWriteString cfg)]
  else []

/-- The `config` branch: `--export` prints the destination and writes
the store there; `--import` opens the given file (`OSError` if that
fails) and hands the open file object to `config.read`, which iterates
its lines as filenames. -/
def configStep (env : Env) (cfg : Config) (doExport : Bool)
    (doImport : Option String) : Config × List Ev × Option PyErr :=
  match doImport with
  | none => (cfg, exportEvents env cfg doExport, none)
  | some p =>
    match env.importLines p with
    | none => (cfg, exportEvents env cfg doExport, some (.oserror p))
    | some lines =>
      (config_read_filenames cfg lines env.fs, exportEvents env cfg doExport, none)

/-- The tail of `main` shared by the register and invoke branches: the
`config` export/import block, then `os.chdir(CURRENT_PATH)`. -/
def finishRun (env : Env) (cfg : Config) (evs : List Ev) (args : Args) :
    RunResult :=
  if args.config then
    match (configStep env cfg args.doExport args.doImport).2.2 with
    | some e =>
      ⟨evs ++ (configStep env cfg args.doExport args.doImport).2.1, some e,
       (configStep env cfg args.doExport args.doImport).1⟩
    | none =>
      ⟨evs ++ (configStep env cfg args.doExport args.doImport).2.1
         ++ [Ev.chdir CURRENT_PATH], none,
       (configStep env cfg args.doExport args.doImport).1⟩
  else ⟨evs ++ [Ev.chdir CURRENT_PATH], none, cfg⟩

/-- The whole of `main` from `src/ahd/cli.py`, in source order: the
`len(sys.argv) == 1` early exit, the store load/create, the `docs`
early exit, the `<paths>`/`<command>` preprocessing, the `.` shorthand
resolution, the register or invoke branch, the `config` block, and the
final `os.chdir(CURRENT_PATH)`. -/
def mainRun (env : Env) (args : Args) : RunResult :=
  if env.argvLen1 then ⟨[Ev.printEv ("\n " ++ usage)], none, []⟩
  else
    if args.docs then
      ⟨loadEvents env ++ [Ev.browse "https://ahd.readthedocs.io"], none,
       loadedConfig env⟩
    else
      match resolveCommand (loadedConfig env) (args.name.getD "")
          (args.command.getD "") with
      | .error e => ⟨loadEvents env, some e, loadedConfig env⟩
      | .ok cmdVal =>
        if args.register then
          match (registerStep env (loadedConfig env) (args.name.getD "") cmdVal
              (preprocessArg args.paths)).2.2 with
          | some e =>
            ⟨loadEvents env
               ++ (registerStep env (loadedConfig env) (args.name.getD "") cmdVal
                    (preprocessArg args.paths)).2.1, some e,
             (registerStep env (loadedConfig env) (args.name.getD "") cmdVal
               (preprocessArg args.paths)).1⟩
          | none =>
            finishRun env
              (registerStep env (loadedConfig env) (args.name.getD "") cmdVal
                (preprocessArg args.paths)).1
              (loadEvents env
                ++ (registerStep env (loadedConfig env) (args.name.getD "") cmdVal
                     (preprocessArg args.paths)).2.1) args
        else
          match (invokeStep env (loadedConfig env) args.name).2 with
          | some e =>
            ⟨loadEvents env ++ (invokeStep env (loadedConfig env) args.name).1,
             some e, loadedConfig env⟩
          | none =>
            finishRun env (loadedConfig env)
              (loadEvents env ++ (invokeStep env (loadedConfig env) args.name).1)
              args

/-! ## Derived observers -/

/-- An event leaves the parent's working directory alone unless it is a
`chdir`, and the only tolerated `chdir` target is `CURRENT_PATH`. -/
def chdirOk (ev : Ev) : Bool :=
  match ev with
  | .chdir p => p == CURRENT_PATH
  | _ => true

/-- Replay of a trace's effect on the parent process's working
directory: `os.chdir(p)` resolves `p` against the current directory,
so the relative path `"."` resolves to the current directory itself. -/
def cwdAfter (cwd0 : String) (tr : List Ev) : String :=
  tr.foldl
    (fun cwd ev =>
      match ev with
      | .chdir p => if p == "." then cwd else p
      | _ => cwd) cwd0

/-- A concrete POSIX-style host used to instantiate the theorems: the
default store exists and is empty, the completion file is writable, no
other file of the abstract filesystem resolves. -/
def testEnv : Env where
  osName := "posix"
  sep := '/'
  argvLen1 := false
  storeExists := true
  storeContent := []
  configFilePath := "/app/ahd/.ahdconfig"
  completionWriteOk := true
  gen := fun _ => "SCRIPT"
  fs := fun _ => none
  importLines := fun _ => none

/-! ## Basic facts about the string model -/

lemma mk_data (s : String) : String.mk s.data = s := rfl

lemma mk_append (a b : List Char) :
    (String.mk a ++ String.mk b) = String.mk (a ++ b) := rfl

lemma data_append (a b : String) : (a ++ b).data = a.data ++ b.data := rfl

lemma splitChar_ne_nil (sep : Char) (l : List Char) : splitChar sep l ≠ [] := by
  induction l with
  | nil => simp [splitChar]
  | cons c rest ih =>
    simp only [splitChar]
    split
    · simp
    · split
      · simp
      · simp

lemma splitChar_cons_of_ne {sep c : Char} {l h : List Char} {t : List (List Char)}
    (hc : (c == sep) = false) (hl : splitChar sep l = h :: t) :
    splitChar sep (c :: l) = (c :: h) :: t := by
  simp only [splitChar, hc, hl]
  rfl

lemma splitChar_of_not_mem {sep : Char} {l : List Char} (h : sep ∉ l) :
    splitChar sep l = [l] := by
  induction l with
  | nil => rfl
  | cons c rest ih =>
    have hc : (c == sep) = false := by
      simp only [List.mem_cons, not_or] at h
      exact beq_eq_false_iff_ne.mpr (fun hcc => h.1 hcc.symm)
    have hr : splitChar sep rest = [rest] := by
      apply ih
      intro hmem
      exact h (List.mem_cons_of_mem _ hmem)
    exact splitChar_cons_of_ne hc hr

lemma splitChar_append_sep {sep : Char} {a : List Char} (b : List Char)
    (h : sep ∉ a) : splitChar sep (a ++ sep :: b) = a :: splitChar sep b := by
  induction a with
  | nil => simp [splitChar]
  | cons c a' ih =>
    have hc : (c == sep) = false := by
      simp only [List.mem_cons, not_or] at h
      exact beq_eq_false_iff_ne.mpr (fun hcc => h.1 hcc.symm)
    have ih' : splitChar sep (a' ++ sep :: b) = a' :: splitChar sep b := by
      apply ih
      intro hmem
      exact h (List.mem_cons_of_mem _ hmem)
    simpa using splitChar_cons_of_ne hc ih'

lemma not_mem_of_mem_splitChar {sep : Char} {l x : List Char}
    (hx : x ∈ splitChar sep l) : sep ∉ x := by
  induction l generalizing x with
  | nil =>
    simp only [splitChar, List.mem_singleton] at hx
    subst hx; exact List.not_mem_nil _
  | cons c rest ih =>
    by_cases hc : (c == sep) = true
    · simp only [splitChar, hc, if_true, List.mem_cons] at hx
      rcases hx with rfl | hx
      · exact List.not_mem_nil _
      · exact ih hx
    · have hc' : (c == sep) = false := by simpa using hc
      obtain ⟨h0, t0, ht⟩ : ∃ h0 t0, splitChar sep rest = h0 :: t0 := by
        cases hsp : splitChar sep rest with
        | nil => exact absurd hsp (splitChar_ne_nil sep rest)
        | cons h0 t0 => exact ⟨h0, t0, rfl⟩
      rw [splitChar_cons_of_ne hc' ht] at hx
      rcases List.mem_cons.mp hx with rfl | hx
      · intro hmem
        rcases List.mem_cons.mp hmem with rfl | hmem
        · simp at hc'
        · exact ih (ht ▸ List.mem_cons_self h0 t0) hmem
      · exact ih (ht ▸ List.mem_cons_of_mem _ hx)

lemma mem_of_mem_splitChar {sep : Char} {l x : List Char} {c : Char}
    (hx : x ∈ splitChar sep l) (hc : c ∈ x) : c ∈ l := by
  induction l generalizing x with
  | nil =>
    simp only [splitChar, List.mem_singleton] at hx
    subst hx; exact absurd hc (List.not_mem_nil _)
  | cons a rest ih =>
    by_cases ha : (a == sep) = true
    · simp only [splitChar, ha, if_true, List.mem_cons] at hx
      rcases hx with rfl | hx
      · exact absurd hc (List.not_mem_nil _)
      · exact List.mem_cons_of_mem _ (ih hx hc)
    · have ha' : (a == sep) = false := by simpa using ha
      obtain ⟨h0, t0, ht⟩ : ∃ h0 t0, splitChar sep rest = h0 :: t0 := by
        cases hsp : splitChar sep rest with
        | nil => exact absurd hsp (splitChar_ne_nil sep rest)
        | cons h0 t0 => exact ⟨h0, t0, rfl⟩
      rw [splitChar_cons_of_ne ha' ht] at hx
      rcases List.mem_cons.mp hx with rfl | hx
      · rcases List.mem_cons.mp hc with rfl | hc
        · exact List.mem_cons_self _ _
        · exact List.mem_cons_of_mem _ (ih (ht ▸ List.mem_cons_self h0 t0) hc)
      · exact List.mem_cons_of_mem _ (ih (ht ▸ List.mem_cons_of_mem _ hx) hc)

lemma mem_of_mem_stripList {l : List Char} {c : Char} (h : c ∈ stripList l) :
    c ∈ l := by
  simp only [stripList, List.mem_reverse] at h
  exact (List.dropWhile_sublist _).subset
    (List.mem_reverse.mp ((List.dropWhile_sublist _).subset h))

lemma stripList_cons_space (l : List Char) :
    stripList (' ' :: l) = stripList l := by
  have h1 : isPySpace ' ' = true := rfl
  simp [stripList, List.dropWhile_cons, h1]

lemma dropWhile_cons_of_neg {p : Char → Bool} {c : Char} (l : List Char)
    (h : p c = false) : List.dropWhile p (c :: l) = c :: l := by
  simp [List.dropWhile_cons, h]

lemma stripList_quoted (m : List Char) :
    stripList ('\'' :: m ++ ['\'']) = '\'' :: m ++ ['\''] := by
  have h1 : isPySpace '\'' = false := rfl
  have e2 : ('\'' :: (m ++ ['\''])).reverse = '\'' :: (m.reverse ++ ['\'']) := by
    simp
  show stripList ('\'' :: (m ++ ['\''])) = '\'' :: (m ++ ['\''])
  rw [stripList, dropWhile_cons_of_neg _ h1, e2, dropWhile_cons_of_neg _ h1,
    ← e2, List.reverse_reverse]

lemma pyStrip_quoted (d : String) : pyStrip ("'" ++ d ++ "'") = "'" ++ d ++ "'" := by
  have : ("'" ++ d ++ "'").data = '\'' :: d.data ++ ['\''] := rfl
  simp only [pyStrip, this, stripList_quoted]
  rfl

lemma pyStrip_space_quoted (d : String) :
    pyStrip (" " ++ ("'" ++ d ++ "'")) = "'" ++ d ++ "'" := by
  have : (" " ++ ("'" ++ d ++ "'")).data = ' ' :: ('\'' :: d.data ++ ['\'']) := rfl
  simp only [pyStrip, this, stripList_cons_space, stripList_quoted]
  rfl

lemma replaceChar_of_not_mem {a : Char} (b : Char) {s : String}
    (h : a ∉ s.data) : replaceChar a b s = s := by
  have hm : s.data.map (fun c => if c == a then b else c) = s.data := by
    conv_rhs => rw [← List.map_id s.data]
    apply List.map_congr_left
    intro c hc
    have hca : (c == a) = false := beq_eq_false_iff_ne.mpr (fun hca => h (hca ▸ hc))
    simp [hca]
  simp only [replaceChar, hm, mk_data]

lemma mem_of_mem_replaceChar {a b c : Char} {s : String}
    (h : c ∈ (replaceChar a b s).data) : c = b ∨ c ∈ s.data := by
  simp only [replaceChar, List.mem_map] at h
  obtain ⟨x, hx, hxeq⟩ := h
  by_cases hxa : (x == a) = true
  · left
    rw [if_pos hxa] at hxeq
    exact hxeq.symm
  · rw [if_neg hxa] at hxeq
    exact Or.inr (hxeq ▸ hx)

lemma not_mem_replaceChar_backslash {s : String} :
    '\\' ∉ (replaceChar '\\' '/' s).data := by
  intro h
  simp only [replaceChar, List.mem_map] at h
  obtain ⟨x, hx, hxeq⟩ := h
  by_cases hxa : (x == '\\') = true
  · rw [if_pos hxa] at hxeq
    exact absurd hxeq (by decide)
  · rw [if_neg hxa] at hxeq
    subst hxeq
    exact hxa (by decide)

lemma removeChar_append (a : Char) (s t : String) :
    removeChar a (s ++ t) = removeChar a s ++ removeChar a t := by
  simp only [removeChar, data_append, List.filter_append]
  rfl

lemma removeChar_of_not_mem {a : Char} {s : String} (h : a ∉ s.data) :
    removeChar a s = s := by
  have hf : s.data.filter (fun c => !(c == a)) = s.data := by
    apply List.filter_eq_self.mpr
    intro c hc
    have hca : (c == a) = false := beq_eq_false_iff_ne.mpr (fun hca => h (hca ▸ hc))
    simp [hca]
  simp only [removeChar, hf, mk_data]

lemma removeChar_quote_quoted {d : String} (h : '\'' ∉ d.data) :
    removeChar '\'' ("'" ++ d ++ "'") = d := by
  rw [removeChar_append, removeChar_append, removeChar_of_not_mem h]
  have h1 : removeChar '\'' "'" = "" := rfl
  rw [h1]
  exact String.ext (by simp [data_append])

lemma pyReprBody_id {q : Char} {l : List Char} (h1 : '\\' ∉ l) (h2 : q ∉ l) :
    pyReprBody q l = l := by
  induction l with
  | nil => rfl
  | cons c rest ih =>
    have hc1 : (c == '\\') = false :=
      beq_eq_false_iff_ne.mpr (fun hc => h1 (hc ▸ List.mem_cons_self c rest))
    have hc2 : (c == q) = false :=
      beq_eq_false_iff_ne.mpr (fun hc => h2 (hc ▸ List.mem_cons_self c rest))
    have ih' := ih (fun hm => h1 (List.mem_cons_of_mem _ hm))
      (fun hm => h2 (List.mem_cons_of_mem _ hm))
    show (if c == '\\' then ['\\', '\\']
        else if c == q then ['\\', c] else [c]) ++ pyReprBody q rest = c :: rest
    rw [if_neg (by simp [hc1]), if_neg (by simp [hc2]), ih', List.singleton_append]

lemma contains_eq_false_of_not_mem {c : Char} {l : List Char} (h : c ∉ l) :
    l.contains c = false := by
  simp only [List.contains, List.elem_eq_mem, decide_eq_false_iff_not]
  exact h

lemma pyRepr_plain {s : String} (h1 : '\'' ∉ s.data) (h2 : '\\' ∉ s.data) :
    pyRepr s = "'" ++ s ++ "'" := by
  have hc : s.data.contains '\'' = false := contains_eq_false_of_not_mem h1
  have hb : pyReprBody '\'' s.data = s.data := pyReprBody_id h2 h1
  simp only [pyRepr, hc, Bool.false_and, Bool.false_eq_true, if_false, hb]
  rfl

lemma startsWithLbrack_brackets (J : String) :
    startsWithLbrack ("[" ++ J ++ "]") = true := rfl

lemma pySlice1m1_brackets (J : String) : pySlice1m1 ("[" ++ J ++ "]") = J := by
  show String.mk ((('[' :: (J.data ++ [']'])).drop 1).dropLast) = J
  rw [List.drop_one, List.tail_cons, List.dropLast_concat, mk_data]

lemma getLast?_brackets (J : String) :
    ("[" ++ J ++ "]").data.getLast? = some ']' := by
  have hd : ("[" ++ J ++ "]").data = ('[' :: J.data) ++ [']'] := rfl
  rw [hd, List.getLast?_concat]

lemma splitChar_commaSpaceJoin (q : String) (qs : List String)
    (hq : ',' ∉ q.data) (hqs : ∀ x ∈ qs, ',' ∉ x.data) :
    splitChar ',' (commaSpaceJoin (q :: qs)).data =
      q.data :: qs.map (fun x => ' ' :: x.data) := by
  revert hq hqs
  induction qs generalizing q with
  | nil =>
    intro hq _
    simp [commaSpaceJoin, splitChar_of_not_mem hq]
  | cons y ys ih =>
    intro hq hqs
    have hy : ',' ∉ y.data := hqs y (List.mem_cons_self y ys)
    have hys : ∀ x ∈ ys, ',' ∉ x.data := fun x hx => hqs x (List.mem_cons_of_mem _ hx)
    have hdata : (commaSpaceJoin (q :: y :: ys)).data
        = q.data ++ (',' :: (' ' :: (commaSpaceJoin (y :: ys)).data)) := by
      show (q ++ ", " ++ commaSpaceJoin (y :: ys)).data = _
      rw [data_append, data_append, List.append_assoc]
      rfl
    have hsp : splitChar ',' ((commaSpaceJoin (y :: ys)).data)
        = y.data :: ys.map (fun x => ' ' :: x.data) := ih y hy hys
    rw [hdata, splitChar_append_sep _ hq, splitChar_cons_of_ne (by decide) hsp,
      List.map_cons]

lemma comma_not_mem_quoted {d : String} (hd : ',' ∉ d.data) :
    ',' ∉ ("'" ++ d ++ "'").data := by
  have hq : ("'" ++ d ++ "'").data = '\'' :: (d.data ++ ['\'']) := rfl
  rw [hq]
  intro hmem
  rcases List.mem_cons.mp hmem with h1 | h2
  · exact absurd h1 (by decide)
  · rcases List.mem_append.mp h2 with h3 | h4
    · exact hd h3
    · exact absurd h4 (by decide)

lemma removeChar_quote_sq : removeChar '\'' "'" = "" := rfl

lemma removeChar_quote_cd : removeChar '\'' "cd " = "cd " := rfl

lemma removeChar_quote_amp : removeChar '\'' " && " = " && " := rfl

lemma removeChar_quote_space : removeChar '\'' " " = " " := rfl

lemma removeChar_quote_running : removeChar '\'' "Running: cd " = "Running: cd " := rfl

lemma compose_of_strip_quoted {p d : String} (cmd : String) (hd : '\'' ∉ d.data)
    (hp : pyStrip p = "'" ++ d ++ "'") :
    compose p cmd = removeChar '\'' ("cd " ++ d ++ " && " ++ cmd ++ " ") := by
  unfold compose
  rw [hp]
  simp only [removeChar_append, removeChar_quote_sq, removeChar_quote_cd,
    removeChar_quote_amp, removeChar_quote_space, removeChar_of_not_mem hd]
  exact String.ext (by simp [data_append])

lemma runningMsg_of_strip_quoted {p d : String} (cmd : String) (hd : '\'' ∉ d.data)
    (hp : pyStrip p = "'" ++ d ++ "'") :
    runningMsg p cmd
      = removeChar '\'' ("Running: cd " ++ d ++ " && " ++ cmd ++ " ") := by
  unfold runningMsg
  rw [hp]
  simp only [removeChar_append, removeChar_quote_sq, removeChar_quote_running,
    removeChar_quote_amp, removeChar_quote_space, removeChar_of_not_mem hd]
  exact String.ext (by simp [data_append])

lemma flatMap_space_quoted (cmd : String) (ds : List String)
    (h : ∀ d ∈ ds, '\'' ∉ d.data) :
    (ds.map (fun d => " " ++ ("'" ++ d ++ "'"))).flatMap
        (fun p => [Ev.printEv (runningMsg p cmd), Ev.popen (compose p cmd)]) =
      ds.flatMap (fun d =>
        [Ev.printEv (removeChar '\'' ("Running: cd " ++ d ++ " && " ++ cmd ++ " ")),
         Ev.popen (removeChar '\'' ("cd " ++ d ++ " && " ++ cmd ++ " "))]) := by
  induction ds with
  | nil => rfl
  | cons d ds ih =>
    have hd := h d (List.mem_cons_self d ds)
    have ih' := ih (fun x hx => h x (List.mem_cons_of_mem _ hx))
    simp only [List.map_cons, List.flatMap_cons, ih',
      compose_of_strip_quoted cmd hd (pyStrip_space_quoted d),
      runningMsg_of_strip_quoted cmd hd (pyStrip_space_quoted d)]

/-- The multi-path dispatch of an entry whose stored `paths` is the
`str()` of a list of plain directory strings: one `Running:` print and
one subprocess launch per directory, in list order, each launching the
single-quote-stripped composition `cd <dir> && <command> `. -/
lemma dispatchEntry_pyStrList (dirs : List String) (cmd : String)
    (hne : dirs ≠ [])
    (h : ∀ d ∈ dirs, ',' ∉ d.data ∧ '\'' ∉ d.data ∧ '\\' ∉ d.data) :
    dispatchEntry "posix" '/' ⟨cmd, pyStrList dirs⟩ =
      dirs.flatMap (fun d =>
        [Ev.printEv (removeChar '\'' ("Running: cd " ++ d ++ " && " ++ cmd ++ " ")),
         Ev.popen (removeChar '\'' ("cd " ++ d ++ " && " ++ cmd ++ " "))]) := by
  obtain ⟨d0, ds, rfl⟩ : ∃ d0 ds, dirs = d0 :: ds := by
    cases dirs with
    | nil => exact absurd rfl hne
    | cons a l => exact ⟨a, l, rfl⟩
  have h0 := h d0 (List.mem_cons_self d0 ds)
  have hds := fun d hd => h d (List.mem_cons_of_mem _ hd)
  have hmap : (d0 :: ds).map pyRepr
      = ("'" ++ d0 ++ "'") :: ds.map (fun d => "'" ++ d ++ "'") := by
    rw [List.map_cons]
    congr 1
    · exact pyRepr_plain h0.2.1 h0.2.2
    · exact List.map_congr_left
        (fun d hd => pyRepr_plain (hds d hd).2.1 (hds d hd).2.2)
  have hpaths : pyStrList (d0 :: ds)
      = "[" ++ commaSpaceJoin
          (("'" ++ d0 ++ "'") :: ds.map (fun d => "'" ++ d ++ "'")) ++ "]" := by
    unfold pyStrList
    rw [hmap]
  have hsplit : splitChar ','
        (commaSpaceJoin
          (("'" ++ d0 ++ "'") :: ds.map (fun d => "'" ++ d ++ "'"))).data
      = ("'" ++ d0 ++ "'").data
          :: (ds.map (fun d => "'" ++ d ++ "'")).map (fun x => ' ' :: x.data) := by
    apply splitChar_commaSpaceJoin
    · exact comma_not_mem_quoted h0.1
    · intro x hx
      obtain ⟨d, hd, rfl⟩ := List.mem_map.mp hx
      exact comma_not_mem_quoted (hds d hd).1
  have hsplitOn : pySplitOn ',' (pySlice1m1 (pyStrList (d0 :: ds)))
      = ("'" ++ d0 ++ "'") :: ds.map (fun d => " " ++ ("'" ++ d ++ "'")) := by
    rw [hpaths, pySlice1m1_brackets]
    unfold pySplitOn
    rw [hsplit, List.map_cons, mk_data, List.map_map, List.map_map]
    congr 1
  have hsw : startsWithLbrack (pyStrList (d0 :: ds)) = true := by
    rw [hpaths]
    exact startsWithLbrack_brackets _
  unfold dispatchEntry
  rw [if_pos hsw]
  have hos : (("posix" : String) == "nt") = false := by decide
  rw [hos]
  simp only [Bool.false_eq_true, if_false]
  show (pySplitOn ',' (pySlice1m1 (pyStrList (d0 :: ds)))).flatMap _ = _
  rw [hsplitOn, List.flatMap_cons,
    compose_of_strip_quoted cmd h0.2.1 (pyStrip_quoted d0),
    runningMsg_of_strip_quoted cmd h0.2.1 (pyStrip_quoted d0),
    flatMap_space_quoted cmd ds (fun d hd => (hds d hd).2.1),
    List.flatMap_cons]

lemma lookupSection_setSection_self (cfg : Config) (n : String) (e : Entry) :
    lookupSection (setSection cfg n e) n = some e := by
  induction cfg with
  | nil => simp [setSection, lookupSection]
  | cons p rest ih =>
    obtain ⟨m, e'⟩ := p
    by_cases hm : (m == n) = true
    · simp [setSection, lookupSection, hm]
    · have hm' : (m == n) = false := by simpa using hm
      simp [setSection, lookupSection, hm', ih]

lemma exists_of_mem_preprocess {s d : String} (hd : d ∈ _preprocess_paths s) :
    ∃ x ∈ splitChar ',' s.data,
      d = pyStrip (replaceChar '\\' '/' (String.mk x)) := by
  unfold _preprocess_paths pySplitOn at hd
  rw [List.map_map] at hd
  obtain ⟨x, hx, rfl⟩ := List.mem_map.mp hd
  exact ⟨x, hx, rfl⟩

lemma mem_preprocess_no_comma {s d : String} (hd : d ∈ _preprocess_paths s) :
    ',' ∉ d.data := by
  obtain ⟨x, hx, rfl⟩ := exists_of_mem_preprocess hd
  intro hc
  have h1 := mem_of_mem_stripList hc
  rcases mem_of_mem_replaceChar h1 with h2 | h2
  · exact absurd h2 (by decide)
  · exact not_mem_of_mem_splitChar hx h2

lemma mem_preprocess_no_quote {s d : String} (hs : '\'' ∉ s.data)
    (hd : d ∈ _preprocess_paths s) : '\'' ∉ d.data := by
  obtain ⟨x, hx, rfl⟩ := exists_of_mem_preprocess hd
  intro hc
  have h1 := mem_of_mem_stripList hc
  rcases mem_of_mem_replaceChar h1 with h2 | h2
  · exact absurd h2 (by decide)
  · exact hs (mem_of_mem_splitChar hx h2)

lemma mem_preprocess_no_backslash {s d : String} (hd : d ∈ _preprocess_paths s) :
    '\\' ∉ d.data := by
  obtain ⟨x, hx, rfl⟩ := exists_of_mem_preprocess hd
  intro hc
  exact not_mem_replaceChar_backslash (mem_of_mem_stripList hc)

lemma preprocess_ne_nil (s : String) : _preprocess_paths s ≠ [] := by
  unfold _preprocess_paths pySplitOn
  intro h
  rw [List.map_map, List.map_eq_nil_iff] at h
  exact splitChar_ne_nil ',' s.data h

lemma preprocess_single {p : String} (hc : ',' ∉ p.data)
    (hb : '\\' ∉ p.data) (hs : pyStrip p = p) :
    _preprocess_paths p = [p] := by
  unfold _preprocess_paths pySplitOn
  rw [splitChar_of_not_mem hc]
  show [pyStrip (replaceChar '\\' '/' (String.mk p.data))] = [p]
  rw [mk_data, replaceChar_of_not_mem _ hb, hs]

lemma cwdAfter_of_all_chdirOk {tr : List Ev} (h : tr.all chdirOk = true)
    (cwd : String) : cwdAfter cwd tr = cwd := by
  induction tr generalizing cwd with
  | nil => rfl
  | cons ev rest ih =>
    rw [List.all_cons, Bool.and_eq_true] at h
    cases ev with
    | chdir p =>
      have hp : (p == ".") = true := h.1
      show cwdAfter (if p == "." then cwd else p) rest = cwd
      rw [hp, if_pos rfl]
      exact ih h.2 cwd
    | popen c => exact ih h.2 cwd
    | waitEv c => exact ih h.2 cwd
    | fwrite a b => exact ih h.2 cwd
    | printEv s => exact ih h.2 cwd
    | browse u => exact ih h.2 cwd

lemma chdirOk_dispatchEntry (os : String) (sep : Char) (e : Entry) :
    (dispatchEntry os sep e).all chdirOk = true := by
  unfold dispatchEntry
  split
  · rw [List.all_eq_true]
    intro ev hev
    rw [List.mem_flatMap] at hev
    obtain ⟨p, _, hp⟩ := hev
    rcases List.mem_cons.mp hp with rfl | hp'
    · rfl
    · rcases List.mem_cons.mp hp' with rfl | habs
      · rfl
      · exact absurd habs (List.not_mem_nil _)
  · rfl

lemma chdirOk_loadEvents (env : Env) : (loadEvents env).all chdirOk = true := by
  unfold loadEvents
  split <;> rfl

lemma chdirOk_registerStep (env : Env) (cfg : Config) (n c : String)
    (pv : PathsVal) : ((registerStep env cfg n c pv).2.1).all chdirOk = true := by
  unfold registerStep
  split
  · rfl
  · split <;> rfl

lemma chdirOk_invokeStep (env : Env) (cfg : Config) (na : Option String) :
    ((invokeStep env cfg na).1).all chdirOk = true := by
  unfold invokeStep
  match na with
  | none => rfl
  | some n =>
    simp only
    split
    · rfl
    · split
      · rfl
      · exact chdirOk_dispatchEntry env.osName env.sep _

lemma chdirOk_exportEvents (env : Env) (cfg : Config) (de : Bool) :
    (exportEvents env cfg de).all chdirOk = true := by
  unfold exportEvents
  split <;> rfl

lemma chdirOk_configStep (env : Env) (cfg : Config) (de : Bool)
    (di : Option String) : ((configStep env cfg de di).2.1).all chdirOk = true := by
  unfold configStep
  match di with
  | none => exact chdirOk_exportEvents env cfg de
  | some p =>
    simp only
    split
    · exact chdirOk_exportEvents env cfg de
    · exact chdirOk_exportEvents env cfg de

lemma chdirOk_current : chdirOk (Ev.chdir CURRENT_PATH) = true := rfl

lemma chdirOk_finishRun (env : Env) (cfg : Config) (evs : List Ev) (args : Args)
    (h : evs.all chdirOk = true) :
    (finishRun env cfg evs args).trace.all chdirOk = true := by
  unfold finishRun
  split
  · split
    · simp [List.all_append, h, chdirOk_configStep]
    · simp [List.all_append, h, chdirOk_configStep, chdirOk_current]
  · simp [List.all_append, h, chdirOk_current]

lemma chdirOk_mainRun (env : Env) (args : Args) :
    (mainRun env args).trace.all chdirOk = true := by
  unfold mainRun
  split
  · rfl
  · split
    · simp [List.all_append, chdirOk_loadEvents, chdirOk]
    · split
      · exact chdirOk_loadEvents env
      · split
        · split
          · simp [List.all_append, chdirOk_loadEvents, chdirOk_registerStep]
          · apply chdirOk_finishRun
            simp [List.all_append, chdirOk_loadEvents, chdirOk_registerStep]
        · split
          · simp [List.all_append, chdirOk_loadEvents, chdirOk_invokeStep]
          · apply chdirOk_finishRun
            simp [List.all_append, chdirOk_loadEvents, chdirOk_invokeStep]

lemma popenCmds_loadEvents (env : Env) : popenCmds (loadEvents env) = [] := by
  unfold loadEvents popenCmds
  split <;> rfl

lemma popenCmds_flatMap_pair (l : List String) (f g : String → String) :
    popenCmds (l.flatMap (fun d => [Ev.printEv (f d), Ev.popen (g d)]))
      = l.map g := by
  induction l with
  | nil => rfl
  | cons d ds ih =>
    rw [List.flatMap_cons]
    unfold popenCmds at ih ⊢
    rw [List.filterMap_append, ih]
    rfl

lemma removeChar_compose_plain {p cmd : String} (hp : '\'' ∉ p.data)
    (hcq : '\'' ∉ cmd.data) :
    removeChar '\'' ("cd " ++ p ++ " && " ++ cmd ++ " ")
      = "cd " ++ p ++ " && " ++ cmd ++ " " := by
  simp only [removeChar_append, removeChar_quote_cd, removeChar_quote_amp,
    removeChar_quote_space, removeChar_of_not_mem hp, removeChar_of_not_mem hcq]

lemma startsWithLbrack_pyStrList (l : List String) :
    startsWithLbrack (pyStrList l) = true := by
  unfold pyStrList
  exact startsWithLbrack_brackets _

lemma getLast?_pyStrList (l : List String) :
    (pyStrList l).data.getLast? = some ']' := by
  unfold pyStrList
  exact getLast?_brackets _

lemma noWait_dispatchEntry (os : String) (sep : Char) (e : Entry) :
    (dispatchEntry os sep e).all (fun ev => !(Ev.isWait ev)) = true := by
  unfold dispatchEntry
  split
  · rw [List.all_eq_true]
    intro ev hev
    rw [List.mem_flatMap] at hev
    obtain ⟨p, _, hp⟩ := hev
    rcases List.mem_cons.mp hp with rfl | hp'
    · rfl
    · rcases List.mem_cons.mp hp' with rfl | habs
      · rfl
      · exact absurd habs (List.not_mem_nil _)
  · rfl

/-! ## Claims -/

/-- C1, counterexample.  Invoking the unregistered name `deploy`
does not surface a handled error: `config["deploy"]` raises a
`KeyError` that no handler catches, so the run aborts with an uncaught
exception — an unhandled crash of the process, contradicting the
claim. -/
theorem C1_counterexample :
    (mainRun testEnv
        ⟨false, false, false, false, none, some "deploy", none, none⟩).err
      = some (.keyError "deploy") := rfl

/-- C7.  Invoking the entry `lint`, registered with an empty
`pathSpec`, launches exactly the composed instruction
`"cd  && eslint . "`: a `cd` with an empty operand (which a POSIX shell
resolves to `$HOME`), not a no-op directory change and not a bare
command. -/
theorem C7_empty_path_launches_bare_cd :
    popenCmds (mainRun
        { testEnv with storeContent := [("lint", ⟨"eslint .", ""⟩)] }
        ⟨false, false, false, false, none, some "lint", none, none⟩).trace
      = ["cd  && eslint . "] := rfl

/-- C6.  Importing the exported one-entry store file into a run
whose registry is empty leaves the registry empty: `config.read` is
handed the open file object, iterates its lines as filenames, fails to
open every one of them and silently reads nothing. -/
theorem C6_import_reads_nothing :
    (mainRun
        { testEnv with
          importLines := fun p =>
            if p == "./.ahdconfig" then
              some (configWriteLines [("build", ⟨"make all", "['/a', '/b']"⟩)])
            else none }
        ⟨false, false, true, false, some "./.ahdconfig", none, none, none⟩).cfg
      = [] := rfl

/-- C2, counterexample.  Registering `proj` with the single path
`src` (no comma) stores the pathSpec `"['src']"` — the `str()` of the
one-element Python list, a bracketed quoted form — not the bare path
`"src"` the claim requires. -/
theorem C2_counterexample :
    lookupSection
        (mainRun testEnv
          ⟨false, true, false, false, none, some "proj", some "make",
           some "src"⟩).cfg "proj"
      = some ⟨"make", "['src']"⟩ ∧
    pyStrOfPathsVal (preprocessArg (some "src")) ≠ "src" ∧
    startsWithLbrack (pyStrOfPathsVal (preprocessArg (some "src"))) = true := by
  refine ⟨rfl, by decide, rfl⟩

/-- C5, counterexample.  On a POSIX host where opening the
bash-completion file fails, registering `build` aborts with the
uncaught `PermissionError` before `main` reaches the store save: the
run's trace is empty (in particular the new entry is never persisted),
even though the entry was added to the in-memory registry. -/
theorem C5_counterexample :
    (mainRun { testEnv with completionWriteOk := false }
        ⟨false, true, false, false, none, some "build", some "make all",
         some "/a"⟩).err
      = some (.oserror "/etc/bash_completion.d/ahd.sh") ∧
    (mainRun { testEnv with completionWriteOk := false }
        ⟨false, true, false, false, none, some "build", some "make all",
         some "/a"⟩).trace = [] ∧
    lookupSection
        (mainRun { testEnv with completionWriteOk := false }
          ⟨false, true, false, false, none, some "build", some "make all",
           some "/a"⟩).cfg "build"
      = some ⟨"make all", "['/a']"⟩ := by
  refine ⟨rfl, rfl, rfl⟩

/-- C1, amended.  Every lookup of a name absent from the registry —
during `.`-shorthand resolution or during invocation — raises a
`KeyError` carrying the offending name; the exception is never caught,
so the run aborts as an unhandled crash (no command is dispatched)
rather than surfacing a handled `UnknownCommand` error. -/
theorem C1_unknown_lookup_uncaught (env : Env) (args : Args) (n : String)
    (hargv : env.argvLen1 = false) (hdocs : args.docs = false)
    (hname : args.name = some n) (hn : n ≠ "")
    (hmiss : lookupSection (loadedConfig env) n = none)
    (hcase : args.command = some "." ∨ args.register = false) :
    (mainRun env args).err = some (.keyError n) ∧
    popenCmds (mainRun env args).trace = [] := by
  by_cases hdot : args.command = some "."
  · have hres : resolveCommand (loadedConfig env) (args.name.getD "")
        (args.command.getD "") = .error (.keyError n) := by
      rw [hname, hdot]
      simp [resolveCommand, hmiss]
    constructor
    · rw [mainRun, hargv, hdocs]
      simp [hres]
    · rw [mainRun, hargv, hdocs]
      simp only [Bool.false_eq_true, if_false, hres]
      exact popenCmds_loadEvents env
  · have hreg : args.register = false := by
      rcases hcase with h | h
      · exact absurd h hdot
      · exact h
    have hc' : ((args.command.getD "") == ".") = false := by
      cases hco : args.command with
      | none => decide
      | some c =>
        have : c ≠ "." := fun hcc => hdot (hco ▸ hcc ▸ rfl)
        simpa using this
    have hres : resolveCommand (loadedConfig env) (args.name.getD "")
        (args.command.getD "") = .ok (args.command.getD "") := by
      unfold resolveCommand
      rw [if_neg (by simp [hc'])]
    have hinv : invokeStep env (loadedConfig env) args.name
        = ([], some (.keyError n)) := by
      rw [hname]
      simp only [invokeStep]
      rw [if_neg (by simp [hn]), hmiss]
    constructor
    · rw [mainRun, hargv, hdocs]
      simp [hres, hreg, hinv]
    · rw [mainRun, hargv, hdocs]
      simp only [Bool.false_eq_true, if_false, hres, hreg, hinv]
      rw [List.append_nil]
      exact popenCmds_loadEvents env

/-- C1, witness. -/
theorem C1_unknown_lookup_uncaught_witness :
    (mainRun testEnv
        ⟨false, false, false, false, none, some "deploy", some ".", none⟩).err
      = some (.keyError "deploy") ∧
    popenCmds (mainRun testEnv
        ⟨false, false, false, false, none, some "deploy", some ".", none⟩).trace
      = [] :=
  C1_unknown_lookup_uncaught testEnv
    ⟨false, false, false, false, none, some "deploy", some ".", none⟩ "deploy"
    rfl rfl rfl (by decide) rfl (Or.inl rfl)

/-- C5, amended.  When the bash-completion write fails on a
non-Windows host, the `PermissionError` propagates uncaught: the new
entry is added to the in-memory registry, but the run aborts before
`main` reaches the store save, so nothing is written anywhere — the
registration is not persisted. -/
theorem C5_completion_failure_aborts_save (env : Env) (n c : String)
    (p : Option String)
    (hargv : env.argvLen1 = false) (hdot : c ≠ ".")
    (hos : (env.osName == "nt") = false) (hfail : env.completionWriteOk = false)
    (hstore : env.storeExists = true) :
    (mainRun env ⟨false, true, false, false, none, some n, some c, p⟩).err
      = some (.oserror "/etc/bash_completion.d/ahd.sh") ∧
    (mainRun env ⟨false, true, false, false, none, some n, some c, p⟩).trace
      = [] ∧
    lookupSection
        (mainRun env ⟨false, true, false, false, none, some n, some c, p⟩).cfg n
      = some ⟨c, pyStrOfPathsVal (preprocessArg p)⟩ := by
  have hres : resolveCommand (loadedConfig env) n c = .ok c := by
    unfold resolveCommand
    rw [if_neg (by simp [hdot])]
  have hload : loadEvents env = [] := by
    unfold loadEvents
    rw [hstore]
    rfl
  have hrs : registerStep env (loadedConfig env) n c (preprocessArg p)
      = (setSection (loadedConfig env) n ⟨c, pyStrOfPathsVal (preprocessArg p)⟩,
         [], some (.oserror "/etc/bash_completion.d/ahd.sh")) := by
    unfold registerStep
    rw [hos, hfail]
    simp
  refine ⟨?_, ?_, ?_⟩ <;>
    simp [mainRun, hargv, hres, hrs, hload, lookupSection_setSection_self]

/-- C5, witness. -/
theorem C5_completion_failure_aborts_save_witness :
    (mainRun { testEnv with completionWriteOk := false }
        ⟨false, true, false, false, none, some "fmt", some "black .",
         some "/src"⟩).err
      = some (.oserror "/etc/bash_completion.d/ahd.sh") ∧
    (mainRun { testEnv with completionWriteOk := false }
        ⟨false, true, false, false, none, some "fmt", some "black .",
         some "/src"⟩).trace = [] ∧
    lookupSection
        (mainRun { testEnv with completionWriteOk := false }
          ⟨false, true, false, false, none, some "fmt", some "black .",
           some "/src"⟩).cfg "fmt"
      = some ⟨"black .", pyStrOfPathsVal (preprocessArg (some "/src"))⟩ :=
  C5_completion_failure_aborts_save { testEnv with completionWriteOk := false }
    "fmt" "black ." (some "/src") rfl (by decide) rfl rfl rfl

/-- C9.  A run that only imports a config file (no registration, no
export) never writes the default store file — in fact it performs no
file write at all, so the persisted store is byte-for-byte unchanged. -/
theorem C9_import_writes_nothing (env : Env) (ip : String)
    (hargv : env.argvLen1 = false) (hstore : env.storeExists = true) :
    ((mainRun env ⟨false, false, true, false, some ip, none, none, none⟩).trace).filter
        (Ev.writesTo env.configFilePath) = [] ∧
    ((mainRun env ⟨false, false, true, false, some ip, none, none, none⟩).trace).filter
        Ev.isFwrite = [] := by
  have hload : loadEvents env = [] := by
    unfold loadEvents
    rw [hstore]
    rfl
  have hres : resolveCommand (loadedConfig env) ("" : String) ("" : String)
      = .ok "" := rfl
  refine ⟨?_, ?_⟩ <;>
    · rw [mainRun, hargv]
      simp only [Bool.false_eq_true, if_false]
      cases him : env.importLines ip <;>
        simp [finishRun, configStep, exportEvents, invokeStep, hload, him, hres,
          Ev.writesTo, Ev.isFwrite]

/-- C9, witness. -/
theorem C9_import_writes_nothing_witness :
    ((mainRun { testEnv with importLines := fun _ => some ["[build]"] }
        ⟨false, false, true, false, some "./.ahdconfig", none, none,
         none⟩).trace).filter
        (Ev.writesTo { testEnv with
          importLines := fun _ => some ["[build]"] }.configFilePath) = [] ∧
    ((mainRun { testEnv with importLines := fun _ => some ["[build]"] }
        ⟨false, false, true, false, some "./.ahdconfig", none, none,
         none⟩).trace).filter Ev.isFwrite = [] :=
  C9_import_writes_nothing
    { testEnv with importLines := fun _ => some ["[build]"] }
    "./.ahdconfig" rfl rfl

/-- C8.  When invoking a registered name, the `<command>` and
`<paths>` arguments supplied on the command line (other than the `.`
shorthand marker) are ignored: the run is identical to one given no
such arguments, and the dispatched events are built from the stored
registry entry alone. -/
theorem C8_invoke_uses_stored_entry (env : Env) (n : String) (e : Entry)
    (c p : Option String)
    (hargv : env.argvLen1 = false) (hn : n ≠ "") (hdot : c ≠ some ".")
    (hlook : lookupSection (loadedConfig env) n = some e) :
    mainRun env ⟨false, false, false, false, none, some n, c, p⟩
      = mainRun env ⟨false, false, false, false, none, some n, none, none⟩ ∧
    (mainRun env ⟨false, false, false, false, none, some n, c, p⟩).trace
      = loadEvents env ++ (dispatchEntry env.osName env.sep e
          ++ [Ev.chdir CURRENT_PATH]) := by
  have hc' : ((c.getD "") == ".") = false := by
    cases hco : c with
    | none => decide
    | some s =>
      have hs : s ≠ "." := fun hcc => hdot (hco ▸ hcc ▸ rfl)
      simpa using hs
  have hres : ∀ cc : String, (cc == ".") = false →
      resolveCommand (loadedConfig env) n cc = .ok cc := by
    intro cc hcc
    unfold resolveCommand
    rw [if_neg (by simp [hcc])]
  have hinv : invokeStep env (loadedConfig env) (some n)
      = (dispatchEntry env.osName env.sep e, none) := by
    simp only [invokeStep]
    rw [if_neg (by simp [hn]), hlook]
  constructor
  · rw [mainRun, hargv, mainRun, hargv]
    simp [hres _ hc', hres "" (by decide), hinv, finishRun]
  · rw [mainRun, hargv]
    simp [hres _ hc', hinv, finishRun]

/-- C8, witness. -/
theorem C8_invoke_uses_stored_entry_witness :
    mainRun { testEnv with storeContent := [("lint", ⟨"eslint .", ""⟩)] }
        ⟨false, false, false, false, none, some "lint", some "echo hi",
         some "/x"⟩
      = mainRun { testEnv with storeContent := [("lint", ⟨"eslint .", ""⟩)] }
          ⟨false, false, false, false, none, some "lint", none, none⟩ ∧
    (mainRun { testEnv with storeContent := [("lint", ⟨"eslint .", ""⟩)] }
        ⟨false, false, false, false, none, some "lint", some "echo hi",
         some "/x"⟩).trace
      = loadEvents { testEnv with storeContent := [("lint", ⟨"eslint .", ""⟩)] }
          ++ (dispatchEntry
                { testEnv with
                  storeContent := [("lint", ⟨"eslint .", ""⟩)] }.osName
                { testEnv with
                  storeContent := [("lint", ⟨"eslint .", ""⟩)] }.sep
                ⟨"eslint .", ""⟩
              ++ [Ev.chdir CURRENT_PATH]) :=
  C8_invoke_uses_stored_entry
    { testEnv with storeContent := [("lint", ⟨"eslint .", ""⟩)] }
    "lint" ⟨"eslint .", ""⟩ (some "echo hi") (some "/x")
    rfl (by decide) (by decide) rfl

/-- C2, amended.  For a registration whose paths input is a single
normalized path (no comma, no backslash, no quotes, no surrounding
whitespace), the stored pathSpec is the bracketed quoted singleton
`['<path>']` — the `str()` of the one-element list — and dispatching
the stored form launches exactly one subprocess whose instruction is
`cd <path> && <command> `, i.e. parsing the stored form back recovers
exactly the registered path. -/
theorem C2_single_path_roundtrip (p cmd : String) (hp : p ≠ "")
    (hc : ',' ∉ p.data) (hb : '\\' ∉ p.data) (hq : '\'' ∉ p.data)
    (hs : pyStrip p = p) (hcq : '\'' ∉ cmd.data) :
    pyStrOfPathsVal (preprocessArg (some p)) = "['" ++ p ++ "']" ∧
    popenCmds (dispatchEntry "posix" '/'
        ⟨cmd, pyStrOfPathsVal (preprocessArg (some p))⟩)
      = ["cd " ++ p ++ " && " ++ cmd ++ " "] := by
  have hpb : (p == "") = false := by simpa using hp
  have hpre : preprocessArg (some p) = .list [p] := by
    show (if (p == "") = true then PathsVal.str ""
      else PathsVal.list (_preprocess_paths p)) = _
    rw [hpb]
    simp only [Bool.false_eq_true, if_false]
    rw [preprocess_single hc hb hs]
  have hstored : pyStrOfPathsVal (preprocessArg (some p)) = pyStrList [p] := by
    rw [hpre]
    rfl
  have hlist : pyStrList [p] = "['" ++ p ++ "']" := by
    unfold pyStrList
    rw [show ([p].map pyRepr) = [pyRepr p] from rfl, pyRepr_plain hq hb,
      show commaSpaceJoin ["'" ++ p ++ "'"] = "'" ++ p ++ "'" from rfl]
    apply String.ext
    simp only [data_append, List.append_assoc]
    rfl
  constructor
  · rw [hstored, hlist]
  · rw [hstored]
    rw [dispatchEntry_pyStrList [p] cmd (by simp)
      (by
        intro d hd
        rw [List.mem_singleton] at hd
        subst hd
        exact ⟨hc, hq, hb⟩)]
    rw [popenCmds_flatMap_pair]
    simp [removeChar_compose_plain hq hcq]

/-- C2, amended witness. -/
theorem C2_single_path_roundtrip_witness :
    pyStrOfPathsVal (preprocessArg (some "src")) = "['" ++ "src" ++ "']" ∧
    popenCmds (dispatchEntry "posix" '/'
        ⟨"make", pyStrOfPathsVal (preprocessArg (some "src"))⟩)
      = ["cd " ++ "src" ++ " && " ++ "make" ++ " "] :=
  C2_single_path_roundtrip "src" "make" (by decide) (by decide) (by decide)
    (by decide) (by decide) (by decide)

/-- C3.  For a registration whose (quote-free) paths input splits
into N ≥ 2 comma-separated pieces, the stored pathSpec starts with `[`
and ends with `]`, and dispatching the stored form at invocation time
launches exactly N subprocesses — one per parsed element, in input
order — whose directory operands are exactly the preprocessed elements
(whitespace-trimmed, with the serialization quotes stripped away). -/
theorem C3_multi_path_stored_and_parsed (input cmd : String)
    (hN : 2 ≤ (_preprocess_paths input).length)
    (hq : '\'' ∉ input.data) (hcq : '\'' ∉ cmd.data) :
    startsWithLbrack (pyStrOfPathsVal (preprocessArg (some input))) = true ∧
    (pyStrOfPathsVal (preprocessArg (some input))).data.getLast? = some ']' ∧
    popenCmds (dispatchEntry "posix" '/'
        ⟨cmd, pyStrOfPathsVal (preprocessArg (some input))⟩)
      = (_preprocess_paths input).map
          (fun d => "cd " ++ d ++ " && " ++ cmd ++ " ") ∧
    (popenCmds (dispatchEntry "posix" '/'
        ⟨cmd, pyStrOfPathsVal (preprocessArg (some input))⟩)).length
      = (_preprocess_paths input).length := by
  have hinput : (input == "") = false := by
    by_contra hcon
    have h1 : (input == "") = true := by simpa using hcon
    have h2 : input = "" := by simpa using h1
    subst h2
    rw [show _preprocess_paths "" = [""] from rfl] at hN
    simp at hN
  have hstored : pyStrOfPathsVal (preprocessArg (some input))
      = pyStrList (_preprocess_paths input) := by
    show pyStrOfPathsVal (if (input == "") = true then PathsVal.str ""
      else PathsVal.list (_preprocess_paths input)) = _
    rw [hinput]
    rfl
  have helems : ∀ d ∈ _preprocess_paths input,
      ',' ∉ d.data ∧ '\'' ∉ d.data ∧ '\\' ∉ d.data :=
    fun d hd => ⟨mem_preprocess_no_comma hd, mem_preprocess_no_quote hq hd,
      mem_preprocess_no_backslash hd⟩
  have hdisp := dispatchEntry_pyStrList (_preprocess_paths input) cmd
    (preprocess_ne_nil input) helems
  have hpopen : popenCmds (dispatchEntry "posix" '/'
        ⟨cmd, pyStrOfPathsVal (preprocessArg (some input))⟩)
      = (_preprocess_paths input).map
          (fun d => "cd " ++ d ++ " && " ++ cmd ++ " ") := by
    rw [hstored, hdisp, popenCmds_flatMap_pair]
    apply List.map_congr_left
    intro d hd
    exact removeChar_compose_plain (helems d hd).2.1 hcq
  refine ⟨?_, ?_, hpopen, ?_⟩
  · rw [hstored]
    exact startsWithLbrack_pyStrList _
  · rw [hstored]
    exact getLast?_pyStrList _
  · rw [hpopen, List.length_map]

/-- C3, witness. -/
theorem C3_multi_path_stored_and_parsed_witness :
    startsWithLbrack (pyStrOfPathsVal (preprocessArg (some "/a, /b"))) = true ∧
    (pyStrOfPathsVal (preprocessArg (some "/a, /b"))).data.getLast? = some ']' ∧
    popenCmds (dispatchEntry "posix" '/'
        ⟨"make all", pyStrOfPathsVal (preprocessArg (some "/a, /b"))⟩)
      = (_preprocess_paths "/a, /b").map
          (fun d => "cd " ++ d ++ " && " ++ "make all" ++ " ") ∧
    (popenCmds (dispatchEntry "posix" '/'
        ⟨"make all", pyStrOfPathsVal (preprocessArg (some "/a, /b"))⟩)).length
      = (_preprocess_paths "/a, /b").length :=
  C3_multi_path_stored_and_parsed "/a, /b" "make all" (by decide) (by decide)
    (by decide)

/-- C4.  Dispatching an entry whose pathSpec is the serialized
bracketed list of N plain directories launches exactly N subprocess
invocations, one per directory, in the order produced by the path
parser, each being the composition `cd <dir> && <template> ` with
single-quote characters stripped from the composed string; and the
dispatcher never waits on any launched subprocess. -/
theorem C4_multi_path_fanout (dirs : List String) (cmd : String)
    (hne : dirs ≠ [])
    (h : ∀ d ∈ dirs, ',' ∉ d.data ∧ '\'' ∉ d.data ∧ '\\' ∉ d.data) :
    popenCmds (dispatchEntry "posix" '/' ⟨cmd, pyStrList dirs⟩)
      = dirs.map (fun d => removeChar '\'' ("cd " ++ d ++ " && " ++ cmd ++ " ")) ∧
    (popenCmds (dispatchEntry "posix" '/' ⟨cmd, pyStrList dirs⟩)).length
      = dirs.length ∧
    (dispatchEntry "posix" '/' ⟨cmd, pyStrList dirs⟩).all
        (fun ev => !(Ev.isWait ev)) = true := by
  have hdisp := dispatchEntry_pyStrList dirs cmd hne h
  have hpopen : popenCmds (dispatchEntry "posix" '/' ⟨cmd, pyStrList dirs⟩)
      = dirs.map (fun d => removeChar '\'' ("cd " ++ d ++ " && " ++ cmd ++ " ")) := by
    rw [hdisp, popenCmds_flatMap_pair]
  exact ⟨hpopen, by rw [hpopen, List.length_map],
    noWait_dispatchEntry "posix" '/' _⟩

/-- C4, witness. -/
theorem C4_multi_path_fanout_witness :
    popenCmds (dispatchEntry "posix" '/' ⟨"make all", pyStrList ["/a", "/b"]⟩)
      = ["/a", "/b"].map
          (fun d => removeChar '\'' ("cd " ++ d ++ " && " ++ "make all" ++ " ")) ∧
    (popenCmds (dispatchEntry "posix" '/'
        ⟨"make all", pyStrList ["/a", "/b"]⟩)).length = (["/a", "/b"] : List String).length ∧
    (dispatchEntry "posix" '/' ⟨"make all", pyStrList ["/a", "/b"]⟩).all
        (fun ev => !(Ev.isWait ev)) = true :=
  C4_multi_path_fanout ["/a", "/b"] "make all" (by decide) (by decide)

/-- C10.  No run of `main` — registration, invocation, config
export/import, or any early exit — ever changes the parent process's
working directory: every `os.chdir` event in every possible trace
targets `CURRENT_PATH = "."`, and replaying any trace over any starting
directory leaves that directory unchanged (directory changes live only
inside the composed shell strings handed to subprocesses). -/
theorem C10_no_parent_chdir (env : Env) (args : Args) (cwd0 : String) :
    (mainRun env args).trace.all chdirOk = true ∧
    cwdAfter cwd0 (mainRun env args).trace = cwd0 :=
  ⟨chdirOk_mainRun env args,
   cwdAfter_of_all_chdirOk (chdirOk_mainRun env args) cwd0⟩

end Ahd
